import Mathlib

/-!
# RPKI dashboard: the daily update (`daily_update.go`)

A shallow embedding of the prefix codec (`ipToBin`, `ipToBinShort`), of the
ingestion workers of `parseRisDump` and `parseRoaList`, and of the
classification loop of `validateRoutes`, followed by the properties proved
about them.

Conventions of the embedding.

* A Go `string` is a Lean `String`; `len` is the length in bytes
  (`String.utf8ByteSize`).
* A run that ends in a panic (index out of range, slice bounds out of range)
  or in `log.Fatalf` is `none`; a run that goes on is `some _`.
* `net.ParseIP` belongs to the Go library and is a parameter of every
  definition that calls it.  `net.IP` is a byte slice and the nil slice is the
  empty list.
* A collection of the record store is a list of documents.  The `_id` of a
  document is the primary key of the store, and the position in the list plays
  that part.  The store itself does not fail.
* The workers of an ingestion stage only insert documents; they are taken
  one after another, in the order of the input.
* A worker of `validateRoutes` first copies documents out of the store and
  later writes back what it computed from its copies.  The workers of a pass
  run together, and a pass is run under a schedule that says which worker
  moves next.
-/

namespace RpkiDashboard

/-! ## Record types and the validity states -/

/-- The Go type `RouteObject` (the `_id` is the position in the collection). -/
structure RouteObject where
  ASN : String
  Prefix : String
  Validity : Int
  RIR : String
  VRP : String
  IPver : Nat
  Binary : String
  deriving DecidableEq, Repr

/-- The Go type `RoaObject`; `Id` holds the text that `Id.String()` yields. -/
structure RoaObject where
  Id : String
  ASN : String
  Prefix : String
  Maxlen : String
  Binary : String
  deriving DecidableEq, Repr

def fixed_length_exceeded : Int := 1
def range_length_exceeded : Int := 2
def asn_mismatch : Int := 3
def asn_and_length_mismatch : Int := 4
def valid : Int := 0
def unknown : Int := -1

/-! ## Library functions used by the program -/

/-- A Go byte. -/
abbrev Byte := Fin 256

/-- The Go type `net.IP`, a slice of bytes. -/
abbrev IP := List Byte

/-- Go's `len` on a string: the number of bytes. -/
def len (s : String) : Nat := s.utf8ByteSize

/-- The call `strings.Contains(s, c)` for a one-character `c`. -/
def Contains (s : String) (c : Char) : Bool := s.data.contains c

/-- The prefix `v4InV6Prefix` of an IPv4-mapped address in `net`. -/
def v4InV6Prefix : IP := [0, 0, 0, 0, 0, 0, 0, 0, 0, 0, 0xff, 0xff]

/-- The method `net.IP.To4`: the 4-byte form, or nil. -/
def To4 (ip : IP) : IP :=
  if ip.length = 4 then ip
  else if ip.length = 16 ∧ ip.take 12 = v4InV6Prefix then ip.drop 12
  else []

/-- The method `net.IP.To16`: the 16-byte form, or nil. -/
def To16 (ip : IP) : IP :=
  if ip.length = 4 then v4InV6Prefix ++ ip
  else if ip.length = 16 then ip
  else []

/-- The verb `%0wb` of `fmt.Sprintf` on an unsigned value: the binary digits,
padded with zeros on the left up to `width` characters. -/
def fmtBin (width n : Nat) : List Char :=
  List.replicate (width - (Nat.toDigits 2 n).length) '0' ++ Nat.toDigits 2 n

/-! ## The prefix codec -/

/-- The function `ipToBin`.  Indexing the nil slice panics. -/
def ipToBin (ParseIP : String → IP) (ip : String) : Option (String × Nat) :=
  if Contains ip '.' then do
    let parse : IP := To4 (ParseIP ip)
    let p0 ← parse[0]?
    let p1 ← parse[1]?
    let p2 ← parse[2]?
    let p3 ← parse[3]?
    pure (String.mk (fmtBin 8 p0.val ++ fmtBin 8 p1.val ++ fmtBin 8 p2.val ++ fmtBin 8 p3.val), 4)
  else if Contains ip ':' then do
    let parse : IP := To16 (ParseIP ip)
    let p0 ← parse[0]?
    let p1 ← parse[1]?
    let p2 ← parse[2]?
    let p3 ← parse[3]?
    let p4 ← parse[4]?
    let p5 ← parse[5]?
    let p6 ← parse[6]?
    let p7 ← parse[7]?
    pure (String.mk (fmtBin 16 p0.val ++ fmtBin 16 p1.val ++ fmtBin 16 p2.val ++ fmtBin 16 p3.val
      ++ fmtBin 16 p4.val ++ fmtBin 16 p5.val ++ fmtBin 16 p6.val ++ fmtBin 16 p7.val), 6)
  else
    pure ("", 0)

/-- The slice expression `s[:n]` on a string: it panics unless `0 ≤ n ≤ len s`. -/
def sliceTo (s : String) (n : Int) : Option String :=
  if 0 ≤ n ∧ n ≤ (len s : Int) then some (String.mk (s.data.take n.toNat)) else none

/-- The function `ipToBinShort`: the same bit-string, cut to `length` characters. -/
def ipToBinShort (ParseIP : String → IP) (ip : String) (length : Int) :
    Option (String × Nat) := do
  let (result, ipver) ← ipToBin ParseIP ip
  let result ← sliceTo result length
  pure (result, ipver)

/-- Values of `net.ParseIP` on the literals used in the examples below:
three addresses, and nil for the other texts, none of which is an address
(`999.0.0.0`, `abc`). -/
def sampleParseIP (s : String) : IP :=
  if s = "10.0.0.0" then v4InV6Prefix ++ [10, 0, 0, 0]
  else if s = "2001::" then [0x20, 0x01, 0, 0, 0, 0, 0, 0, 0, 0, 0, 0, 0, 0, 0, 0]
  else if s = "2002::" then [0x20, 0x02, 0, 0, 0, 0, 0, 0, 0, 0, 0, 0, 0, 0, 0, 0]
  else []

/-! ## More library functions -/

/-- The value of a run of decimal digits, read from the left; `none` when a
character is not a decimal digit. -/
def digitsVal : List Char → Nat → Option Nat
  | [], acc => some acc
  | c :: cs, acc =>
    if c.isDigit then digitsVal cs (acc * 10 + (c.toNat - 48)) else none

/-- The function `strconv.Atoi` (64-bit `int`): an optional sign, then one or
more decimal digits, and a value that fits a signed 64-bit integer. -/
def Atoi (s : String) : Option Int :=
  match s.data with
  | [] => none
  | c :: cs =>
    if c = '-' then
      if cs = [] then none
      else (digitsVal cs 0).bind fun n => if n ≤ 2 ^ 63 then some (-(n : Int)) else none
    else if c = '+' then
      if cs = [] then none
      else (digitsVal cs 0).bind fun n => if n < 2 ^ 63 then some (n : Int) else none
    else (digitsVal (c :: cs) 0).bind fun n => if n < 2 ^ 63 then some (n : Int) else none

/-- Cutting a list of characters at every occurrence of `sep`. -/
def splitChars (sep : Char) : List Char → List (List Char)
  | [] => [[]]
  | c :: cs =>
    if c = sep then [] :: splitChars sep cs
    else
      match splitChars sep cs with
      | [] => [[c]]
      | h :: t => (c :: h) :: t

/-- The call `strings.Split(s, sep)` for a one-character separator. -/
def Split (s : String) (sep : Char) : List String :=
  (splitChars sep s.data).map String.mk

/-- The call `strings.Trim(s, cutset)`: the characters of `cutset` are removed
from both ends. -/
def Trim (s cutset : String) : String :=
  String.mk
    (((s.data.dropWhile fun c => cutset.data.contains c).reverse.dropWhile
      fun c => cutset.data.contains c).reverse)

/-- The call `strings.HasPrefix(s, p)`. -/
def HasPrefix (s p : String) : Bool := p.data.isPrefixOf s.data

/-- The call `regexp.MatchString("^[0-9]+", s)`: the text starts with a
decimal digit. -/
def matchLeadingDigits (s : String) : Bool :=
  match s.data with
  | [] => false
  | c :: _ => c.isDigit

/-! ## Ingestion -/

/-- The worker of `parseRisDump` on one line.  `none`: the run aborts;
`some none`: nothing is inserted; `some (some r)`: the document `r` is
inserted. -/
def parseRisLine (ParseIP : String → IP) (line : String) : Option (Option RouteObject) :=
  if matchLeadingDigits line then do
    let robj := Split line '\t'
    let seenText ← robj[2]?
    let seen ← Atoi seenText
    if seen < 5 then pure none
    else do
      let pfx ← robj[1]?
      let addr ← (Split pfx '/')[0]?
      let (binary, ipver) ← ipToBin ParseIP addr
      let asn ← robj[0]?
      pure (some
        { ASN := asn, Prefix := pfx, Validity := unknown, RIR := "", VRP := "",
          IPver := ipver, Binary := binary })
  else pure none

/-- The function `parseRisDump` on the lines of a dump, the workers taken
one after another: the route collection after the load. -/
def parseRisDump (ParseIP : String → IP) :
    List String → List RouteObject → Option (List RouteObject)
  | [], routes => some routes
  | line :: rest, routes => do
    let r ← parseRisLine ParseIP line
    match r with
    | none => parseRisDump ParseIP rest routes
    | some doc => parseRisDump ParseIP rest (routes ++ [doc])

/-- The worker of `parseRoaList` on one line; `id` is the text of the
identifier that the store gives to the new document. -/
def parseRoaLine (ParseIP : String → IP) (id line : String) : Option (Option RoaObject) :=
  if !HasPrefix line "ASN,IP" then do
    let vrpobj := Split line ','
    let asnText ← vrpobj[0]?
    let maxlenText ← vrpobj[2]?
    let pfx ← vrpobj[1]?
    let parts := Split pfx '/'
    let lengthText ← parts[1]?
    let length ← Atoi lengthText
    let addr ← parts[0]?
    let (binary, _) ← ipToBinShort ParseIP addr length
    pure (some
      { Id := id, ASN := Trim asnText "AS", Prefix := pfx, Maxlen := Trim maxlenText "\n",
        Binary := binary })
  else pure none

/-- The loop of `parseRoaList` from line number `i` on: the workers are taken
one after another, and the document of line `i` gets the identifier
`newId i`. -/
def parseRoaListFrom (ParseIP : String → IP) (newId : Nat → String) :
    Nat → List String → List RoaObject → Option (List RoaObject)
  | _, [], roas => some roas
  | i, line :: rest, roas => do
    let r ← parseRoaLine ParseIP (newId i) line
    match r with
    | none => parseRoaListFrom ParseIP newId (i + 1) rest roas
    | some doc => parseRoaListFrom ParseIP newId (i + 1) rest (roas ++ [doc])

/-- The function `parseRoaList`: the VRP collection is dropped, then loaded
from the lines of the export. -/
def parseRoaList (ParseIP : String → IP) (newId : Nat → String) (lines : List String) :
    Option (List RoaObject) :=
  parseRoaListFrom ParseIP newId 0 lines []

/-! ## Validation -/

/-- The query of `validateRoutes`, the regular expression `^` followed by the
bit-string of the VRP, on the field `binary`: the field starts with that
bit-string (a bit-string holds no character that is special in a regular
expression). -/
def binsearch (roaBinary routeBinary : String) : Bool :=
  roaBinary.data.isPrefixOf routeBinary.data

/-- The body of the loop over the routes in `validateRoutes`, lines 248-270:
the route with its new validity and its longer trail. -/
def classify (roa : RoaObject) (roa_maxlen : Int) (route : RouteObject) : RouteObject :=
  let roa_length : Int := len roa.Binary
  let route_length : Int := len route.Binary
  let validity : Int :=
    if route_length ≥ roa_length ∧ route_length ≤ roa_maxlen ∧ route.ASN = roa.ASN then
      valid
    else if route.ASN = roa.ASN ∧ route_length > roa_maxlen then
      if route.Validity ≠ valid then
        if roa_length = roa_maxlen then fixed_length_exceeded else range_length_exceeded
      else route.Validity
    else if route.ASN ≠ roa.ASN ∧ route_length ≥ roa_length ∧ route_length ≤ roa_maxlen then
      if route.Validity ≠ valid then asn_mismatch else route.Validity
    else if route.ASN ≠ roa.ASN ∧ route_length > roa_maxlen then
      if route.Validity ≠ valid then asn_and_length_mismatch else route.Validity
    else route.Validity
  { route with Validity := validity, VRP := route.VRP ++ roa.Id ++ "," }

/-- What one worker of `validateRoutes` does to one document of the route
collection: a document that the query selects is classified and written back
under its own `_id`, any other document is not touched. -/
def updateRoute (roa : RoaObject) (roa_maxlen : Int) (r : RouteObject) : RouteObject :=
  if binsearch roa.Binary r.Binary then classify roa roa_maxlen r else r

/-- The worker of `validateRoutes` for one VRP: the route collection after
the worker has run; `none` when `Maxlen` is not a number (`log.Fatalf`). -/
def validateRoa (roa : RoaObject) (routes : List RouteObject) : Option (List RouteObject) := do
  let roa_maxlen ← Atoi roa.Maxlen
  pure (routes.map (updateRoute roa roa_maxlen))

/-- The condition under which `classify` writes `valid`, for a document that
the query selects. -/
def authorizes (roa : RoaObject) (roa_maxlen : Int) (r : RouteObject) : Prop :=
  binsearch roa.Binary r.Binary = true ∧ r.ASN = roa.ASN ∧ (len r.Binary : Int) ≤ roa_maxlen

/-- The constant `maxGoRoutines`, the capacity of the channel `throttle`. -/
def maxGoRoutines : Nat := 20

/-- One write of a worker of `validateRoutes`, lines 271-273: the `$set` of
`validity` and `vrp`, with the values of the worker's copy, on the document
that has the `_id` of the copy. -/
structure RouteUpdate where
  id : Nat
  Validity : Int
  VRP : String
  deriving DecidableEq, Repr

/-- The fields `validity` and `vrp` of the document at position `id` are set;
the other documents and the other fields are not touched. -/
def setFields : Nat → Int → String → List RouteObject → List RouteObject
  | _, _, _, [] => []
  | 0, validity, vrp, r :: rs => { r with Validity := validity, VRP := vrp } :: rs
  | id + 1, validity, vrp, r :: rs => r :: setFields id validity vrp rs

/-- The call `UpdateAll` of line 273 on the route collection. -/
def applyUpdate (u : RouteUpdate) (routes : List RouteObject) : List RouteObject :=
  setFields u.id u.Validity u.VRP routes

/-- The writes that the loop of lines 247-277 sends for the copies that the
query returned, in the order of the loop; `i` is the position of the first
document of the list.  Each write is computed from the copy alone. -/
def pendingUpdates (roa : RoaObject) (roa_maxlen : Int) :
    Nat → List RouteObject → List RouteUpdate
  | _, [] => []
  | i, r :: rs =>
    if binsearch roa.Binary r.Binary then
      { id := i, Validity := (classify roa roa_maxlen r).Validity,
        VRP := (classify roa roa_maxlen r).VRP } :: pendingUpdates roa roa_maxlen (i + 1) rs
    else pendingUpdates roa roa_maxlen (i + 1) rs

/-- The first part of a worker of `validateRoutes`, lines 231-246: the query
copies the selected documents out of the store as it is at that moment, and
`Maxlen` is converted (`none`: `log.Fatalf`).  The result is the list of the
writes that the worker has still to send. -/
def fetchRoutes (roa : RoaObject) (routes : List RouteObject) : Option (List RouteUpdate) := do
  let roa_maxlen ← Atoi roa.Maxlen
  pure (pendingUpdates roa roa_maxlen 0 routes)

/-- The state of a pass of `validateRoutes`: the route collection, and for
the worker of each VRP either `none` (it has not sent its query yet) or the
writes it has still to send (`some []`: it has given its slot back). -/
structure PassState where
  routes : List RouteObject
  workers : List (Option (List RouteUpdate))
  deriving DecidableEq, Repr

/-- The number of workers before worker `w` that hold a slot of `throttle`:
the loop of line 225 takes the slots in the order of the VRPs, so each of them
has its slot from before worker `w` gets one until it gives it back. -/
def slotsHeldBefore (w : Nat) (workers : List (Option (List RouteUpdate))) : Nat :=
  ((workers.take w).filter fun s => s != some []).length

/-- One step of worker `w`.  A worker that has not started sends its query,
when the gate lets it in (otherwise nothing happens); a worker that has
started sends its next write; a worker that is done does nothing. -/
def stepWorker (roas : List RoaObject) (w : Nat) (st : PassState) : Option PassState :=
  match roas[w]?, st.workers[w]? with
  | some roa, some none =>
    if slotsHeldBefore w st.workers < maxGoRoutines then do
      let pending ← fetchRoutes roa st.routes
      pure { st with workers := st.workers.set w (some pending) }
    else pure st
  | some _, some (some (u :: pending)) =>
    pure { routes := applyUpdate u st.routes, workers := st.workers.set w (some pending) }
  | _, _ => pure st

/-- The steps of the workers in the order of a schedule, a list of worker
numbers. -/
def runSchedule (roas : List RoaObject) : List Nat → PassState → Option PassState
  | [], st => some st
  | w :: rest, st => do
    let st ← stepWorker roas w st
    runSchedule roas rest st

/-- The function `validateRoutes` under a schedule of its workers, one worker
for each VRP: the state that the pass has reached, `none` when a worker has
aborted the run. -/
def validateRoutes (roas : List RoaObject) (schedule : List Nat) (routes : List RouteObject) :
    Option PassState :=
  runSchedule roas schedule { routes := routes, workers := roas.map fun _ => none }

/-- Every worker is done: `wg.Wait()` of line 281 returns. -/
def PassState.finished (st : PassState) : Bool :=
  st.workers.all fun s => s == some []

/-! ## Notions of the specification -/

/-- A text over the two characters `0` and `1`. -/
def IsBitString (s : String) : Prop := ∀ c ∈ s.data, c = '0' ∨ c = '1'

/-- The bit-string length invariant of a route document: 32 characters for
family 4, 128 characters for family 6, counted as characters and as bytes, and
only the characters `0` and `1`. -/
def BitStringInvariant (r : RouteObject) : Prop :=
  (r.IPver = 4 → r.Binary.length = 32 ∧ len r.Binary = 32) ∧
  (r.IPver = 6 → r.Binary.length = 128 ∧ len r.Binary = 128) ∧
  IsBitString r.Binary

/-- The eight bits of a byte, the most significant first. -/
def byteBits (b : Byte) : List Bool :=
  (List.range 8).map fun i => b.val.testBit (7 - i)

/-- The bits of an address, in network order: those of its first byte, then
those of its second byte, and so on. -/
def addressBits (ip : IP) : List Bool := (ip.map byteBits).flatten

/-! ## Data of the examples -/

/-- The VRP of AS 65001 for 10.0.0.0/8 with maximum length 16. -/
def exRoa16 : RoaObject :=
  { Id := "vrp1", ASN := "65001", Prefix := "10.0.0.0/8", Maxlen := "16", Binary := "00001010" }

/-- The VRP of AS 65001 for 10.0.0.0/8 with maximum length 32. -/
def exRoa32 : RoaObject :=
  { Id := "vrp2", ASN := "65001", Prefix := "10.0.0.0/8", Maxlen := "32", Binary := "00001010" }

/-- The route document of AS 65002 for 10.0.0.0/16, as `parseRisDump` stores it. -/
def exRoute65002 : RouteObject :=
  { ASN := "65002", Prefix := "10.0.0.0/16", Validity := unknown, RIR := "", VRP := "",
    IPver := 4, Binary := "00001010000000000000000000000000" }

/-- The route document of AS 65001 for 10.0.0.0/24, as `parseRisDump` stores it. -/
def exRoute65001 : RouteObject :=
  { ASN := "65001", Prefix := "10.0.0.0/24", Validity := unknown, RIR := "", VRP := "",
    IPver := 4, Binary := "00001010000000000000000000000000" }

/-- A route document of AS 65001 under 192.0.0.0/8, marked valid. -/
def exRoute192 : RouteObject :=
  { ASN := "65001", Prefix := "192.0.2.0/24", Validity := valid, RIR := "", VRP := "vrp0,",
    IPver := 4, Binary := "11000000000000000000001000000000" }

/-- The VRP that `parseRoaList` stores for the line `AS65001,10.0.0.0/8,8`. -/
def exRoa8 : RoaObject :=
  { Id := "vrp1", ASN := "65001", Prefix := "10.0.0.0/8", Maxlen := "8", Binary := "00001010" }

/-- The route document that `parseRisDump` stores for AS 65001 and 10.0.0.0/8. -/
def exRoute8 : RouteObject :=
  { ASN := "65001", Prefix := "10.0.0.0/8", Validity := unknown, RIR := "", VRP := "",
    IPver := 4, Binary := "00001010000000000000000000000000" }

/-- The bit-string that `ipToBin` returns for the address 2001::. -/
def exBinary2001 : String :=
  "00000000001000000000000000000001000000000000000000000000000000000000000000000000000000000000000000000000000000000000000000000000"

/-- The route document that `parseRisDump` stores for AS 65002 and 2001::/16. -/
def exRoute2001 : RouteObject :=
  { ASN := "65002", Prefix := "2001::/16", Validity := unknown, RIR := "", VRP := "",
    IPver := 6, Binary := exBinary2001 }

/-- Four lines of a route dump: a comment, two routes seen by enough peers,
one route seen by four peers. -/
def exRisLines : List String :=
  ["% ASN\tPrefix\tpeers", "65001\t10.0.0.0/8\t10", "65002\t2001::/16\t7",
    "65003\t10.0.0.0/8\t4"]

/-! ## Lemmas on the validation loop -/

theorem utf8Len_le_of_isPrefixOf :
    ∀ (p s : List Char), p.isPrefixOf s = true → String.utf8Len p ≤ String.utf8Len s
  | [], _, _ => by simp
  | _ :: _, [], h => by simp [List.isPrefixOf] at h
  | a :: p, b :: s, h => by
    simp only [List.isPrefixOf, Bool.and_eq_true, beq_iff_eq] at h
    have ih := utf8Len_le_of_isPrefixOf p s h.2
    rw [h.1]
    simp only [String.utf8Len_cons]
    omega

theorem len_le_of_binsearch (p s : String) (h : binsearch p s = true) : len p ≤ len s := by
  cases p with
  | mk pd =>
  cases s with
  | mk sd =>
  simpa [len] using utf8Len_le_of_isPrefixOf pd sd h

theorem validateRoa_eq (roa : RoaObject) (m : Int) (routes : List RouteObject)
    (hm : Atoi roa.Maxlen = some m) :
    validateRoa roa routes = some (routes.map (updateRoute roa m)) := by
  simp [validateRoa, hm]

theorem validateRoa_some (roa : RoaObject) (routes routes' : List RouteObject)
    (h : validateRoa roa routes = some routes') :
    ∃ m, Atoi roa.Maxlen = some m ∧ routes' = routes.map (updateRoute roa m) := by
  cases hm : Atoi roa.Maxlen with
  | none => simp [validateRoa, hm] at h
  | some m =>
    rw [validateRoa_eq roa m routes hm] at h
    exact ⟨m, rfl, (Option.some.inj h).symm⟩

theorem updateRoute_ASN (roa : RoaObject) (m : Int) (r : RouteObject) :
    (updateRoute roa m r).ASN = r.ASN := by
  unfold updateRoute classify
  split <;> rfl

theorem updateRoute_Binary (roa : RoaObject) (m : Int) (r : RouteObject) :
    (updateRoute roa m r).Binary = r.Binary := by
  unfold updateRoute classify
  split <;> rfl

/-- The validity that `classify` writes, as one case distinction. -/
theorem classify_Validity (roa : RoaObject) (m : Int) (r : RouteObject)
    (hc : binsearch roa.Binary r.Binary = true) :
    (classify roa m r).Validity =
      if r.ASN = roa.ASN then
        if (len r.Binary : Int) ≤ m then valid
        else if r.Validity = valid then valid
        else if (len roa.Binary : Int) = m then fixed_length_exceeded
        else range_length_exceeded
      else if r.Validity = valid then valid
      else if (len r.Binary : Int) ≤ m then asn_mismatch
      else asn_and_length_mismatch := by
  have hlen : (len roa.Binary : Int) ≤ (len r.Binary : Int) := by
    exact_mod_cast len_le_of_binsearch _ _ hc
  unfold classify
  by_cases ha : r.ASN = roa.ASN <;> by_cases hl : (len r.Binary : Int) ≤ m <;>
    by_cases hv : r.Validity = valid <;>
    simp [ha, hl, hv, hlen, not_le.mp, lt_of_not_ge]

theorem updateRoute_Validity_valid_iff (roa : RoaObject) (m : Int) (r : RouteObject) :
    (updateRoute roa m r).Validity = valid ↔ r.Validity = valid ∨ authorizes roa m r := by
  unfold updateRoute authorizes
  by_cases hc : binsearch roa.Binary r.Binary = true
  · rw [if_pos hc, classify_Validity roa m r hc]
    by_cases ha : r.ASN = roa.ASN <;> by_cases hl : (len r.Binary : Int) ≤ m <;>
      by_cases hv : r.Validity = valid <;>
      simp [ha, hl, hv, hc, valid, fixed_length_exceeded, range_length_exceeded,
        asn_mismatch, asn_and_length_mismatch]
    split <;> simp
  · simp [hc]

/-- The guard of `classify`: a copy that is valid is written back valid,
whatever the VRP. -/
theorem classify_Validity_of_valid (roa : RoaObject) (m : Int) (r : RouteObject)
    (hv : r.Validity = valid) : (classify roa m r).Validity = valid := by
  unfold classify
  simp only [hv]
  split_ifs <;> simp_all

theorem setFields_append (validity : Int) (vrp : String) (r : RouteObject)
    (rs : List RouteObject) :
    ∀ pre : List RouteObject,
      setFields pre.length validity vrp (pre ++ r :: rs) =
        pre ++ { r with Validity := validity, VRP := vrp } :: rs
  | [] => rfl
  | p :: pre => by
    have ih := setFields_append validity vrp r rs pre
    show p :: setFields pre.length validity vrp (pre ++ r :: rs) = _
    rw [ih]
    rfl

/-- The writes of one worker, sent with no other worker in between, change
the collection as `updateRoute` says. -/
theorem foldl_pendingUpdates (roa : RoaObject) (m : Int) :
    ∀ (rs pre : List RouteObject),
      (pendingUpdates roa m pre.length rs).foldl (fun st u => applyUpdate u st) (pre ++ rs) =
        pre ++ rs.map (updateRoute roa m)
  | [], pre => by simp [pendingUpdates]
  | r :: rs, pre => by
    have ih := foldl_pendingUpdates roa m rs (pre ++ [r])
    have ih' := foldl_pendingUpdates roa m rs (pre ++ [classify roa m r])
    simp only [List.length_append, List.length_singleton, List.append_assoc,
      List.singleton_append] at ih ih'
    by_cases hc : binsearch roa.Binary r.Binary = true
    · have hset : applyUpdate
          { id := pre.length, Validity := (classify roa m r).Validity,
            VRP := (classify roa m r).VRP } (pre ++ r :: rs) =
          pre ++ classify roa m r :: rs := by
        unfold applyUpdate
        rw [setFields_append]
        rfl
      simp only [pendingUpdates, hc, if_true, List.foldl_cons, hset, ih', List.map_cons,
        updateRoute]
    · simp only [pendingUpdates, hc, Bool.false_eq_true, if_false, ih, List.map_cons,
        updateRoute]

/-- A worker of `validateRoutes` that runs alone, its query and then its writes
with nothing in between, is `validateRoa`. -/
theorem validateRoa_eq_fetch_then_write (roa : RoaObject) (routes : List RouteObject) :
    validateRoa roa routes =
      (fetchRoutes roa routes).map fun pending =>
        pending.foldl (fun st u => applyUpdate u st) routes := by
  cases hm : Atoi roa.Maxlen with
  | none => simp [validateRoa, fetchRoutes, hm]
  | some m =>
    have h := foldl_pendingUpdates roa m routes []
    simp only [List.length_nil, List.nil_append] at h
    simp [validateRoa, fetchRoutes, hm, h]

/-! ## Lemmas on the prefix codec -/

set_option maxRecDepth 1000000 in
theorem fmtBin_byte : ∀ b : Byte,
    ((fmtBin 8 b.val).length = 8 ∧ ∀ c ∈ fmtBin 8 b.val, c = '0' ∨ c = '1') ∧
    ((fmtBin 16 b.val).length = 16 ∧ ∀ c ∈ fmtBin 16 b.val, c = '0' ∨ c = '1') := by
  decide

theorem utf8Len_of_bits : ∀ (l : List Char), (∀ c ∈ l, c = '0' ∨ c = '1') →
    String.utf8Len l = l.length
  | [], _ => rfl
  | c :: cs, h => by
    have ih := utf8Len_of_bits cs (fun d hd => h d (List.mem_cons_of_mem _ hd))
    have hc : c.utf8Size = 1 := by
      rcases h c (List.mem_cons_self _ _) with hc | hc <;> rw [hc] <;> rfl
    simp [ih, hc]

/-- The three ways in which `ipToBin` returns. -/
theorem ipToBin_some (P : String → IP) (s bin : String) (ver : Nat)
    (h : ipToBin P s = some (bin, ver)) :
    (ver = 4 ∧ Contains s '.' = true ∧ ∃ p0 p1 p2 p3 : Byte,
      bin = String.mk (fmtBin 8 p0.val ++ fmtBin 8 p1.val ++ fmtBin 8 p2.val ++ fmtBin 8 p3.val)) ∨
    (ver = 6 ∧ Contains s '.' = false ∧ Contains s ':' = true ∧
      ∃ p0 p1 p2 p3 p4 p5 p6 p7 : Byte,
      bin = String.mk (fmtBin 16 p0.val ++ fmtBin 16 p1.val ++ fmtBin 16 p2.val ++ fmtBin 16 p3.val
        ++ fmtBin 16 p4.val ++ fmtBin 16 p5.val ++ fmtBin 16 p6.val ++ fmtBin 16 p7.val)) ∨
    (ver = 0 ∧ Contains s '.' = false ∧ Contains s ':' = false ∧ bin = "") := by
  unfold ipToBin at h
  by_cases hd : Contains s '.' = true
  · left
    simp only [hd, if_true, Option.bind_eq_bind, Option.bind_eq_some, Option.pure_def,
      Option.some.injEq, Prod.mk.injEq] at h
    obtain ⟨p0, -, p1, -, p2, -, p3, -, hb, hv⟩ := h
    exact ⟨hv.symm, hd, p0, p1, p2, p3, hb.symm⟩
  · have hd' : Contains s '.' = false := by simpa using hd
    by_cases hc : Contains s ':' = true
    · right; left
      simp only [hd', hc, if_true, Bool.false_eq_true, if_false, Option.bind_eq_bind,
        Option.bind_eq_some, Option.pure_def, Option.some.injEq, Prod.mk.injEq] at h
      obtain ⟨p0, -, p1, -, p2, -, p3, -, p4, -, p5, -, p6, -, p7, -, hb, hv⟩ := h
      exact ⟨hv.symm, hd', hc, p0, p1, p2, p3, p4, p5, p6, p7, hb.symm⟩
    · have hc' : Contains s ':' = false := by simpa using hc
      right; right
      simp only [hd', hc', Bool.false_eq_true, if_false, Option.pure_def, Option.some.injEq,
        Prod.mk.injEq] at h
      exact ⟨h.2.symm, hd', hc', h.1.symm⟩

/-- The bit-string and the family that `ipToBin` returns. -/
theorem ipToBin_bitString (P : String → IP) (s bin : String) (ver : Nat)
    (h : ipToBin P s = some (bin, ver)) :
    (ver = 4 → bin.length = 32 ∧ len bin = 32) ∧
    (ver = 6 → bin.length = 128 ∧ len bin = 128) ∧ IsBitString bin := by
  have key : ∀ l : List Char, (∀ c ∈ l, c = '0' ∨ c = '1') →
      (String.mk l).length = l.length ∧ len (String.mk l) = l.length ∧
        IsBitString (String.mk l) := by
    intro l hl
    exact ⟨rfl, by simpa [len] using utf8Len_of_bits l hl, hl⟩
  rcases ipToBin_some P s bin ver h with ⟨hv, -, p0, p1, p2, p3, hb⟩ |
    ⟨hv, -, -, p0, p1, p2, p3, p4, p5, p6, p7, hb⟩ | ⟨hv, -, -, hb⟩
  · have hbits : ∀ c ∈ fmtBin 8 p0.val ++ fmtBin 8 p1.val ++ fmtBin 8 p2.val ++ fmtBin 8 p3.val,
        c = '0' ∨ c = '1' := by
      intro c hc
      simp only [List.mem_append] at hc
      rcases hc with ((hc | hc) | hc) | hc
      exacts [(fmtBin_byte p0).1.2 c hc, (fmtBin_byte p1).1.2 c hc,
        (fmtBin_byte p2).1.2 c hc, (fmtBin_byte p3).1.2 c hc]
    obtain ⟨k1, k2, k3⟩ := key _ hbits
    have hlen : (fmtBin 8 p0.val ++ fmtBin 8 p1.val ++ fmtBin 8 p2.val
        ++ fmtBin 8 p3.val).length = 32 := by
      simp [(fmtBin_byte p0).1.1, (fmtBin_byte p1).1.1, (fmtBin_byte p2).1.1,
        (fmtBin_byte p3).1.1]
    subst hb
    refine ⟨fun _ => ⟨by rw [k1, hlen], by rw [k2, hlen]⟩, fun h6 => ?_, k3⟩
    omega
  · have hbits : ∀ c ∈ fmtBin 16 p0.val ++ fmtBin 16 p1.val ++ fmtBin 16 p2.val
        ++ fmtBin 16 p3.val ++ fmtBin 16 p4.val ++ fmtBin 16 p5.val ++ fmtBin 16 p6.val
        ++ fmtBin 16 p7.val, c = '0' ∨ c = '1' := by
      intro c hc
      simp only [List.mem_append] at hc
      rcases hc with ((((((hc | hc) | hc) | hc) | hc) | hc) | hc) | hc
      exacts [(fmtBin_byte p0).2.2 c hc, (fmtBin_byte p1).2.2 c hc,
        (fmtBin_byte p2).2.2 c hc, (fmtBin_byte p3).2.2 c hc, (fmtBin_byte p4).2.2 c hc,
        (fmtBin_byte p5).2.2 c hc, (fmtBin_byte p6).2.2 c hc, (fmtBin_byte p7).2.2 c hc]
    obtain ⟨k1, k2, k3⟩ := key _ hbits
    have hlen : (fmtBin 16 p0.val ++ fmtBin 16 p1.val ++ fmtBin 16 p2.val
        ++ fmtBin 16 p3.val ++ fmtBin 16 p4.val ++ fmtBin 16 p5.val ++ fmtBin 16 p6.val
        ++ fmtBin 16 p7.val).length = 128 := by
      simp [(fmtBin_byte p0).2.1, (fmtBin_byte p1).2.1, (fmtBin_byte p2).2.1,
        (fmtBin_byte p3).2.1, (fmtBin_byte p4).2.1, (fmtBin_byte p5).2.1,
        (fmtBin_byte p6).2.1, (fmtBin_byte p7).2.1]
    subst hb
    refine ⟨fun h4 => ?_, fun _ => ⟨by rw [k1, hlen], by rw [k2, hlen]⟩, k3⟩
    omega
  · subst hb
    refine ⟨fun h4 => ?_, fun h6 => ?_, ?_⟩
    · omega
    · omega
    · intro c hc
      simp at hc

/-- A text with neither a `.` nor a `:` goes through `ipToBin` without a
call to the parser: the result is the empty bit-string and family 0, and
`ipToBinShort` returns it for length 0 only. -/
theorem ipToBin_no_separator (P : String → IP) (s : String)
    (hd : Contains s '.' = false) (hc : Contains s ':' = false) :
    ipToBin P s = some ("", 0) ∧ ipToBinShort P s 0 = some ("", 0) ∧
      ∀ n : Int, n ≠ 0 → ipToBinShort P s n = none := by
  have hsome : ipToBin P s = some ("", 0) := by
    simp [ipToBin, hd, hc]
  refine ⟨hsome, by simp [ipToBinShort, hsome, sliceTo, len], ?_⟩
  intro n hn
  have h0 : len "" = 0 := by decide
  have hbad : ¬ (0 ≤ n ∧ n ≤ ((len "" : Nat) : Int)) := by rw [h0]; omega
  simp [ipToBinShort, hsome, sliceTo, hbad]

theorem splitChars_ne_nil (sep : Char) : ∀ l : List Char, splitChars sep l ≠ []
  | [] => by simp [splitChars]
  | c :: cs => by
    have ih := splitChars_ne_nil sep cs
    unfold splitChars
    split
    · simp
    · split <;> simp

/-- The first element of a `strings.Split` is always there. -/
theorem Split_head (s : String) (sep : Char) : ∃ a, (Split s sep)[0]? = some a := by
  unfold Split
  cases h : splitChars sep s.data with
  | nil => exact absurd h (splitChars_ne_nil sep s.data)
  | cons a t => exact ⟨String.mk a, by simp⟩

/-- The worker of `parseRisDump` on a line of at least three fields whose
third field is a number. -/
theorem parseRisLine_eq (P : String → IP) (line f0 f1 f2 : String) (rest : List String)
    (n : Int) (hs : Split line '\t' = f0 :: f1 :: f2 :: rest) (hn : Atoi f2 = some n) :
    parseRisLine P line =
      if matchLeadingDigits line = true then
        if n < 5 then some none
        else
          ((Split f1 '/')[0]?).bind fun addr =>
            (ipToBin P addr).bind fun res =>
              some (some
                { ASN := f0, Prefix := f1, Validity := unknown, RIR := "", VRP := "",
                  IPver := res.2, Binary := res.1 })
      else some none := by
  unfold parseRisLine
  by_cases hd : matchLeadingDigits line = true
  · by_cases h5 : n < 5
    · simp [hd, hs, hn, h5]
    · simp only [hd, hs, hn, h5, if_true, if_false, Option.bind_eq_bind, Option.pure_def,
        List.getElem?_cons_succ, List.getElem?_cons_zero, Option.some_bind]
  · simp [hd]

/-- A worker of `parseRisDump` that aborts takes the load with it. -/
theorem parseRisDump_abort (P : String → IP) (line : String)
    (h : parseRisLine P line = none) :
    ∀ (before after : List String) (routes : List RouteObject),
      parseRisDump P (before ++ line :: after) routes = none
  | [], after, routes => by simp [parseRisDump, h]
  | b :: before, after, routes => by
    cases hb : parseRisLine P b with
    | none => simp [parseRisDump, hb]
    | some res =>
      cases res with
      | none =>
        simpa [parseRisDump, hb] using parseRisDump_abort P line h before after routes
      | some doc =>
        simpa [parseRisDump, hb] using
          parseRisDump_abort P line h before after (routes ++ [doc])

/-- One worker of `parseRisDump` keeps the bit-string invariant. -/
theorem parseRisLine_bitString (P : String → IP) (line : String) (r : RouteObject)
    (h : parseRisLine P line = some (some r)) : BitStringInvariant r := by
  unfold parseRisLine at h
  by_cases hd : matchLeadingDigits line = true
  · simp only [hd, if_true, Option.bind_eq_bind, Option.pure_def, Option.bind_eq_some] at h
    obtain ⟨f2, -, seen, -, h⟩ := h
    by_cases h5 : seen < 5
    · simp [h5] at h
    · simp only [h5, if_false, Option.bind_eq_some, Option.some.injEq] at h
      obtain ⟨pfx, -, addr, -, ⟨bin, ver⟩, hbin, asn, -, hr⟩ := h
      subst hr
      exact ipToBin_bitString P addr bin ver hbin
  · simp [hd] at h

/-! ## The validation engine: the claims -/

/-- C1: for a VRP whose maximum length is a number, the worker of
`validateRoutes` runs to its end, and for every route that the query selects
and that is not valid already, the validity written is `valid` when the route
length is at most the maximum length and the ASNs agree,
`fixed_length_exceeded` or `range_length_exceeded` when the ASNs agree and the
route is longer (according to whether the VRP length equals the maximum
length), `asn_mismatch` when the ASNs differ and the route length is at most
the maximum length, `asn_and_length_mismatch` when the ASNs differ and the
route is longer; it is never `unknown`. -/
theorem validateRoutes_classification (roa : RoaObject) (m : Int)
    (routes : List RouteObject) (hm : Atoi roa.Maxlen = some m) :
    ∃ routes', validateRoa roa routes = some routes' ∧
      ∀ (i : Nat) (r : RouteObject), routes[i]? = some r →
        binsearch roa.Binary r.Binary = true → r.Validity ≠ valid →
        ∃ r', routes'[i]? = some r' ∧
          ((len r.Binary : Int) ≤ m ∧ r.ASN = roa.ASN → r'.Validity = valid) ∧
          (r.ASN = roa.ASN ∧ m < (len r.Binary : Int) ∧ (len roa.Binary : Int) = m →
            r'.Validity = fixed_length_exceeded) ∧
          (r.ASN = roa.ASN ∧ m < (len r.Binary : Int) ∧ (len roa.Binary : Int) ≠ m →
            r'.Validity = range_length_exceeded) ∧
          (r.ASN ≠ roa.ASN ∧ (len r.Binary : Int) ≤ m → r'.Validity = asn_mismatch) ∧
          (r.ASN ≠ roa.ASN ∧ m < (len r.Binary : Int) →
            r'.Validity = asn_and_length_mismatch) ∧
          r'.Validity ≠ unknown := by
  refine ⟨_, validateRoa_eq roa m routes hm, ?_⟩
  intro i r hr hc hv
  refine ⟨classify roa m r, ?_, ?_⟩
  · rw [List.getElem?_map, hr]
    simp [updateRoute, hc]
  · rw [classify_Validity roa m r hc]
    refine ⟨?_, ?_, ?_, ?_, ?_, ?_⟩
    · rintro ⟨hl, ha⟩
      simp [ha, hl]
    · rintro ⟨ha, hl, he⟩
      simp [ha, not_le.mpr hl, hv, he]
    · rintro ⟨ha, hl, he⟩
      simp [ha, not_le.mpr hl, hv, he]
    · rintro ⟨ha, hl⟩
      simp [ha, hl, hv]
    · rintro ⟨ha, hl⟩
      simp [ha, not_le.mpr hl, hv]
    · have hv0 : ¬ r.Validity = 0 := hv
      by_cases ha : r.ASN = roa.ASN <;> by_cases hl : (len r.Binary : Int) ≤ m <;>
        by_cases he : (len roa.Binary : Int) = m <;>
        simp [ha, hl, hv0, he, valid, unknown, fixed_length_exceeded, range_length_exceeded,
          asn_mismatch, asn_and_length_mismatch]

set_option maxRecDepth 100000 in
theorem validateRoutes_classification_witness :
    Atoi exRoa16.Maxlen = some 16 ∧
    ∃ routes', validateRoa exRoa16 [exRoute65002, exRoute65001] = some routes' ∧
      ∀ (i : Nat) (r : RouteObject), [exRoute65002, exRoute65001][i]? = some r →
        binsearch exRoa16.Binary r.Binary = true → r.Validity ≠ valid →
        ∃ r', routes'[i]? = some r' ∧
          ((len r.Binary : Int) ≤ 16 ∧ r.ASN = exRoa16.ASN → r'.Validity = valid) ∧
          (r.ASN = exRoa16.ASN ∧ 16 < (len r.Binary : Int) ∧ (len exRoa16.Binary : Int) = 16 →
            r'.Validity = fixed_length_exceeded) ∧
          (r.ASN = exRoa16.ASN ∧ 16 < (len r.Binary : Int) ∧ (len exRoa16.Binary : Int) ≠ 16 →
            r'.Validity = range_length_exceeded) ∧
          (r.ASN ≠ exRoa16.ASN ∧ (len r.Binary : Int) ≤ 16 → r'.Validity = asn_mismatch) ∧
          (r.ASN ≠ exRoa16.ASN ∧ 16 < (len r.Binary : Int) →
            r'.Validity = asn_and_length_mismatch) ∧
          r'.Validity ≠ unknown :=
  ⟨by decide, validateRoutes_classification exRoa16 16 [exRoute65002, exRoute65001] (by decide)⟩

/-- C3 at a failing run, one route and two VRPs of its ASN, of maximum length
16 and 32.  Both workers send their query while the route is `unknown`; the
worker of the second VRP writes `valid`; the route is valid in the store, and
the worker of the first VRP then writes what it computed from its copy,
`range_length_exceeded`: the guard of lines 253, 261 and 265 reads the copy,
not the store. -/
theorem validateRoutes_valid_overwritten :
    validateRoutes [exRoa16, exRoa32] [0, 1, 1] [exRoute65001] =
      some { routes := [{ exRoute65001 with Validity := valid, VRP := "vrp2," }],
             workers := [some [{ id := 0, Validity := range_length_exceeded, VRP := "vrp1," }],
               some []] } ∧
    validateRoutes [exRoa16, exRoa32] [0, 1, 1, 0] [exRoute65001] =
      some
        { routes := [{ exRoute65001 with Validity := range_length_exceeded, VRP := "vrp1," }],
          workers := [some [], some []] } := by
  set_option maxRecDepth 1000000 in decide

/-- C8: the worker of `validateRoutes` for a VRP leaves alone every route
whose bit-string does not start with the bit-string of the VRP: the document
is the same after the worker as before, in all its fields, and no document is
added or removed. -/
theorem validateRoutes_frame (roa : RoaObject) (routes routes' : List RouteObject) (i : Nat)
    (r : RouteObject) (hrun : validateRoa roa routes = some routes')
    (hr : routes[i]? = some r) (hn : binsearch roa.Binary r.Binary = false) :
    routes'[i]? = some r ∧ routes'.length = routes.length := by
  obtain ⟨m, _, hmap⟩ := validateRoa_some roa routes routes' hrun
  subst hmap
  refine ⟨?_, by simp⟩
  rw [List.getElem?_map, hr]
  simp [updateRoute, hn]

set_option maxRecDepth 100000 in
theorem validateRoutes_frame_witness :
    validateRoa exRoa16 [exRoute65002, exRoute192] =
      some [classify exRoa16 16 exRoute65002, exRoute192] ∧
    [exRoute65002, exRoute192][1]? = some exRoute192 ∧
    binsearch exRoa16.Binary exRoute192.Binary = false ∧
    [classify exRoa16 16 exRoute65002, exRoute192][1]? = some exRoute192 ∧
    [classify exRoa16 16 exRoute65002, exRoute192].length =
      [exRoute65002, exRoute192].length :=
  ⟨by decide, by decide, by decide,
    validateRoutes_frame exRoa16 [exRoute65002, exRoute192] _ 1 exRoute192
      (by decide) (by decide) (by decide)⟩

/-- C10 at a failing run: the route starts `unknown` and the VRP of maximum
length 32 selects it, has its ASN and a maximum length that is at least the
route length, yet the pass in which both workers send their query before
either writes, and the worker of that VRP writes first, ends with
`range_length_exceeded`; the pass in which the workers run one after the other
ends with `valid`, and so does the pass over the two VRPs in the other order
under the first schedule. -/
theorem validateRoutes_order_dependent :
    exRoute65001.Validity = unknown ∧ exRoa32 ∈ [exRoa16, exRoa32] ∧
    Atoi exRoa32.Maxlen = some 32 ∧ binsearch exRoa32.Binary exRoute65001.Binary = true ∧
    exRoute65001.ASN = exRoa32.ASN ∧ (len exRoute65001.Binary : Int) ≤ 32 ∧
    (validateRoutes [exRoa16, exRoa32] [0, 1, 1, 0] [exRoute65001]).map
        (fun st => (st.finished, st.routes.map fun r => r.Validity)) =
      some (true, [range_length_exceeded]) ∧
    (validateRoutes [exRoa16, exRoa32] [0, 0, 1, 1] [exRoute65001]).map
        (fun st => (st.finished, st.routes.map fun r => r.Validity)) =
      some (true, [valid]) ∧
    (validateRoutes [exRoa32, exRoa16] [0, 1, 1, 0] [exRoute65001]).map
        (fun st => (st.finished, st.routes.map fun r => r.Validity)) =
      some (true, [valid]) := by
  set_option maxRecDepth 1000000 in decide

/-! ## The prefix codec and the ingestion: the claims -/

/-- C5: every route document that a worker of `parseRisDump` inserts has a
bit-string of exactly 32 characters when its family is 4 and of exactly 128
characters when its family is 6, over the characters `0` and `1` only; hence
a load by `parseRisDump` into a collection whose documents have that property
gives a collection whose documents have it. -/
theorem parseRisDump_bitString (P : String → IP) (lines : List String)
    (routes0 routes : List RouteObject) (h0 : ∀ r ∈ routes0, BitStringInvariant r)
    (hrun : parseRisDump P lines routes0 = some routes) :
    (∀ line ∈ lines, ∀ r, parseRisLine P line = some (some r) →
      (r.IPver = 4 → r.Binary.length = 32 ∧ len r.Binary = 32) ∧
      (r.IPver = 6 → r.Binary.length = 128 ∧ len r.Binary = 128) ∧
      ∀ c ∈ r.Binary.data, c = '0' ∨ c = '1') ∧
    ∀ r ∈ routes, BitStringInvariant r := by
  refine ⟨fun line _ r h => parseRisLine_bitString P line r h, ?_⟩
  induction lines generalizing routes0 with
  | nil =>
    simp only [parseRisDump, Option.some.injEq] at hrun
    subst hrun
    exact h0
  | cons line rest ih =>
    cases hl : parseRisLine P line with
    | none => simp [parseRisDump, hl] at hrun
    | some res =>
      cases res with
      | none =>
        have hrest : parseRisDump P rest routes0 = some routes := by
          simpa [parseRisDump, hl] using hrun
        exact ih routes0 h0 hrest
      | some doc =>
        have hrest : parseRisDump P rest (routes0 ++ [doc]) = some routes := by
          simpa [parseRisDump, hl] using hrun
        refine ih (routes0 ++ [doc]) ?_ hrest
        intro r hr
        rcases List.mem_append.mp hr with hr | hr
        · exact h0 r hr
        · rw [List.mem_singleton.mp hr]
          exact parseRisLine_bitString P line doc hl

set_option maxRecDepth 1000000 in
theorem parseRisDump_bitString_witness :
    parseRisDump sampleParseIP exRisLines [] = some [exRoute8, exRoute2001] ∧
    ∀ r ∈ [exRoute8, exRoute2001], BitStringInvariant r :=
  ⟨by decide,
    (parseRisDump_bitString sampleParseIP exRisLines [] [exRoute8, exRoute2001]
      (fun _ h => absurd h (List.not_mem_nil _)) (by decide)).2⟩

/-- C6, as stated, fails: the text `abc` is not an address, and `ipToBin`
returns the empty bit-string with family 0 for it, as `ipToBinShort` does for
length 0. -/
theorem ipToBin_malformed_counterexample :
    sampleParseIP "abc" = [] ∧ ipToBin sampleParseIP "abc" = some ("", 0) ∧
      ipToBinShort sampleParseIP "abc" 0 = some ("", 0) := by
  decide

/-- C6, amended: for a text that is not an address and that holds a `.` or
a `:`, `ipToBin` fails, and `ipToBinShort` fails for every length. -/
theorem ipToBin_malformed (P : String → IP) (s : String) (hmal : P s = [])
    (hsep : Contains s '.' = true ∨ Contains s ':' = true) :
    ipToBin P s = none ∧ ∀ n : Int, ipToBinShort P s n = none := by
  have hnone : ipToBin P s = none := by
    unfold ipToBin
    by_cases hd : Contains s '.' = true
    · simp [hd, hmal, To4]
    · have hc : Contains s ':' = true := hsep.resolve_left hd
      simp [hd, hc, hmal, To16]
  exact ⟨hnone, fun n => by simp [ipToBinShort, hnone]⟩

theorem ipToBin_malformed_witness :
    sampleParseIP "999.0.0.0" = [] ∧
    (Contains "999.0.0.0" '.' = true ∨ Contains "999.0.0.0" ':' = true) ∧
    ipToBin sampleParseIP "999.0.0.0" = none ∧
    ∀ n : Int, ipToBinShort sampleParseIP "999.0.0.0" n = none :=
  ⟨by decide, by decide,
    ipToBin_malformed sampleParseIP "999.0.0.0" (by decide) (by decide)⟩

/-- C7, as stated, fails: the line below has three fields, starts with a
decimal digit and reports ten peers, yet no document is inserted: the address
does not parse, the worker panics and the load aborts. -/
theorem parseRisDump_filter_counterexample :
    Split "65001\t999.0.0.0/8\t10" '\t' = ["65001", "999.0.0.0/8", "10"] ∧
    Atoi "10" = some 10 ∧ matchLeadingDigits "65001\t999.0.0.0/8\t10" = true ∧
    sampleParseIP "999.0.0.0" = [] ∧
    parseRisLine sampleParseIP "65001\t999.0.0.0/8\t10" = none ∧
    parseRisDump sampleParseIP ["65001\t999.0.0.0/8\t10"] [] = none := by
  decide

/-- C7, amended: a line that does not start with a decimal digit inserts
nothing.  On a line of at least three tab-separated fields whose third field
is a number `n`: with `n` below 5 nothing is inserted; a document is inserted
exactly when the line starts with a decimal digit, `n` is at least 5 and
`ipToBin` returns on the address part of the second field, and the document
has the first field as ASN, the second as prefix, validity `unknown`, an
empty RIR and an empty trail, and the family and bit-string that `ipToBin`
returned; the worker aborts exactly when the line starts with a decimal
digit, `n` is at least 5 and `ipToBin` fails on the address part, and then
the whole load aborts, whatever the lines before and after. -/
theorem parseRisDump_filter (P : String → IP) (line : String) :
    (matchLeadingDigits line = false → parseRisLine P line = some none) ∧
    ∀ (f0 f1 f2 : String) (rest : List String) (n : Int),
      Split line '\t' = f0 :: f1 :: f2 :: rest → Atoi f2 = some n →
      (n < 5 → parseRisLine P line = some none) ∧
      (∀ r, parseRisLine P line = some (some r) ↔
        matchLeadingDigits line = true ∧ 5 ≤ n ∧
          ∃ addr bin ver, (Split f1 '/')[0]? = some addr ∧
            ipToBin P addr = some (bin, ver) ∧
            r = { ASN := f0, Prefix := f1, Validity := unknown, RIR := "", VRP := "",
                  IPver := ver, Binary := bin }) ∧
      (parseRisLine P line = none ↔
        matchLeadingDigits line = true ∧ 5 ≤ n ∧
          ∃ addr, (Split f1 '/')[0]? = some addr ∧ ipToBin P addr = none) ∧
      (parseRisLine P line = none →
        ∀ (before after : List String) (routes : List RouteObject),
          parseRisDump P (before ++ line :: after) routes = none) := by
  refine ⟨fun hd => by simp [parseRisLine, hd], ?_⟩
  intro f0 f1 f2 rest n hs hn
  refine ⟨?_, ?_, ?_,
    fun h before after routes => parseRisDump_abort P line h before after routes⟩
  · intro h5
    rw [parseRisLine_eq P line f0 f1 f2 rest n hs hn]
    by_cases hd : matchLeadingDigits line = true <;> simp [hd, h5]
  · intro r
    rw [parseRisLine_eq P line f0 f1 f2 rest n hs hn]
    by_cases hd : matchLeadingDigits line = true
    · by_cases h5 : n < 5
      · simp [hd, h5]
      · simp only [hd, h5, if_true, if_false, Option.bind_eq_some, Option.some.injEq, true_and]
        constructor
        · rintro ⟨addr, ha, ⟨bin, ver⟩, hb, hr⟩
          exact ⟨by omega, addr, bin, ver, ha, hb, hr.symm⟩
        · rintro ⟨_, addr, bin, ver, ha, hb, hr⟩
          exact ⟨addr, ha, (bin, ver), hb, hr.symm⟩
    · simp [hd]
  · rw [parseRisLine_eq P line f0 f1 f2 rest n hs hn]
    obtain ⟨a, ha⟩ := Split_head f1 '/'
    by_cases hd : matchLeadingDigits line = true
    · by_cases h5 : n < 5
      · simp [hd, h5]
      · have h5' : 5 ≤ n := by omega
        cases hb : ipToBin P a with
        | none => simp [hd, h5, h5', ha, hb]
        | some res => simp [hd, h5, ha, hb]
    · simp [hd]

set_option maxRecDepth 1000000 in
theorem parseRisDump_filter_witness :
    matchLeadingDigits "% ASN\tPrefix\tpeers" = false ∧
    parseRisLine sampleParseIP "% ASN\tPrefix\tpeers" = some none ∧
    Split "65003\t10.0.0.0/8\t4" '\t' = ["65003", "10.0.0.0/8", "4"] ∧ Atoi "4" = some 4 ∧
    parseRisLine sampleParseIP "65003\t10.0.0.0/8\t4" = some none ∧
    Split "65001\t10.0.0.0/8\t10" '\t' = ["65001", "10.0.0.0/8", "10"] ∧
    Atoi "10" = some 10 ∧
    parseRisLine sampleParseIP "65001\t10.0.0.0/8\t10" = some (some exRoute8) ∧
    Split "65001\t999.0.0.0/8\t10" '\t' = ["65001", "999.0.0.0/8", "10"] ∧
    parseRisLine sampleParseIP "65001\t999.0.0.0/8\t10" = none ∧
    parseRisDump sampleParseIP
      (["65001\t10.0.0.0/8\t10"] ++ "65001\t999.0.0.0/8\t10" :: ["65003\t10.0.0.0/8\t4"]) [] =
        none :=
  ⟨by decide,
    (parseRisDump_filter sampleParseIP "% ASN\tPrefix\tpeers").1 (by decide),
    by decide, by decide,
    ((parseRisDump_filter sampleParseIP "65003\t10.0.0.0/8\t4").2 "65003" "10.0.0.0/8" "4" [] 4
      (by decide) (by decide)).1 (by decide),
    by decide, by decide,
    (((parseRisDump_filter sampleParseIP "65001\t10.0.0.0/8\t10").2 "65001" "10.0.0.0/8" "10"
      [] 10 (by decide) (by decide)).2.1 exRoute8).mpr
      ⟨by decide, by decide, "10.0.0.0", "00001010000000000000000000000000", 4, by decide,
        by decide, rfl⟩,
    by decide,
    (((parseRisDump_filter sampleParseIP "65001\t999.0.0.0/8\t10").2 "65001" "999.0.0.0/8" "10"
      [] 10 (by decide) (by decide)).2.2.1).mpr
      ⟨by decide, by decide, "999.0.0.0", by decide, by decide⟩,
    ((parseRisDump_filter sampleParseIP "65001\t999.0.0.0/8\t10").2 "65001" "999.0.0.0/8" "10"
      [] 10 (by decide) (by decide)).2.2.2 (by decide) ["65001\t10.0.0.0/8\t10"]
      ["65003\t10.0.0.0/8\t4"] []⟩

/-- C2 at the example of the specification: the VRP line of AS 65001 for
10.0.0.0/8 with maximum length 8 and the route line of AS 65001 for
10.0.0.0/8 are ingested, and one pass of `validateRoutes`, the query of its
one worker and then its one write, writes `fixed_length_exceeded` for the
route: the route length that the pass compares is the length of the stored
bit-string, 32. -/
theorem validateRoutes_exact_length_route :
    parseRoaList sampleParseIP (fun _ => "vrp1")
      ["ASN,IP Prefix,Max Length", "AS65001,10.0.0.0/8,8"] = some [exRoa8] ∧
    parseRisDump sampleParseIP ["65001\t10.0.0.0/8\t10"] [] = some [exRoute8] ∧
    validateRoa exRoa8 [exRoute8] =
      some [{ exRoute8 with Validity := fixed_length_exceeded, VRP := "vrp1," }] ∧
    validateRoutes [exRoa8] [0, 0] [exRoute8] =
      some { routes := [{ exRoute8 with Validity := fixed_length_exceeded, VRP := "vrp1," }],
             workers := [some []] } ∧
    len exRoute8.Binary = 32 := by
  set_option maxRecDepth 1000000 in decide

/-- C4 at a failing input: the bit-string of 2002::/16 is a prefix of the
bit-string of the address 2001::, while the first 16 bits of the two addresses
differ: `ipToBin` writes each of the first eight bytes on 16 characters. -/
theorem ipToBin_v6_prefix_mismatch :
    ipToBin sampleParseIP "2001::" = some (exBinary2001, 6) ∧
    ipToBinShort sampleParseIP "2002::" 16 = some ("0000000000100000", 6) ∧
    binsearch "0000000000100000" exBinary2001 = true ∧
    (addressBits (sampleParseIP "2001::")).take 16 ≠
      (addressBits (sampleParseIP "2002::")).take 16 := by
  set_option maxRecDepth 1000000 in decide

end RpkiDashboard
